import Mathlib

/-!
Verification of the QOI-style encoder fork (sources: encode.rs, header.rs,
pixel.rs, error.rs).  The data model and operations below are a shallow
embedding of the Rust source: bytes are Nat values, u8 wrapping arithmetic
is explicit arithmetic modulo 256, u64 wrapping arithmetic is explicit
arithmetic modulo 2 to the 64, and fallible operations return Except.
The files consts.rs and utils.rs are not part of the given sources; the
constants and the output-sink abstraction are modelled from the spec and
are marked as such in their doc comments.
-/

namespace Qoi

/-- Modelled from the spec: consts.rs is not among the given sources.  The
header is 12 bytes (layout table in the spec, offsets 0 to 11). -/
def QOI_HEADER_SIZE : Nat := 12

/-- Modelled from the spec: the 4-byte magic constant of the published
format, read as a little-endian u32. -/
def QOI_MAGIC : Nat := 0x66696f71

/-- Modelled from the spec: indexed-cache chunk tag, top two bits 00. -/
def QOI_OP_INDEX : Nat := 0x00

/-- Modelled from the spec: diff chunk tag, top two bits 01. -/
def QOI_OP_DIFF : Nat := 0x40

/-- Modelled from the spec: luma chunk tag, top two bits 10. -/
def QOI_OP_LUMA : Nat := 0x80

/-- Modelled from the spec: run chunk tag, top two bits 11. -/
def QOI_OP_RUN : Nat := 0xc0

/-- Modelled from the spec: literal RGB chunk tag, a reserved full-byte
value of the published format. -/
def QOI_OP_RGB : Nat := 0xfe

/-- Modelled from the spec: literal RGBA chunk tag, a reserved full-byte
value of the published format. -/
def QOI_OP_RGBA : Nat := 0xff

/-- Modelled from the spec: the 8-byte end-of-stream marker, seven zero
bytes followed by one 0x01 byte. -/
def QOI_PADDING : List Nat := [0, 0, 0, 0, 0, 0, 0, 1]

/-- Modelled from the spec: size of the end-of-stream marker. -/
def QOI_PADDING_SIZE : Nat := 8

/-- Modelled from the spec: maximum number of pixels, 400 million. -/
def QOI_PIXELS_MAX : Nat := 400000000

/-- Largest usize value on a 64-bit target. -/
def USIZE_MAX : Nat := 2 ^ 64 - 1

/-- Wrapping u8 addition on byte values. -/
def wadd8 (x y : Nat) : Nat := (x + y) % 256

/-- Wrapping u8 subtraction on byte values (y below 256). -/
def wsub8 (x y : Nat) : Nat := (x + 256 - y % 256) % 256

/-- Truncating cast to u32, as in a Rust cast of usize as u32. -/
def wrap32 (x : Nat) : Nat := x % 4294967296

/-- Saturating usize multiplication on a 64-bit target. -/
def satMul (x y : Nat) : Nat := min (x * y) USIZE_MAX

/-- Decidable equality of results, used to evaluate the model at concrete
inputs. -/
instance {A B : Type} [DecidableEq A] [DecidableEq B] : DecidableEq (Except A B) := fun x y =>
  match x, y with
  | .error a, .error b =>
    if h : a = b then .isTrue (h ▸ rfl) else .isFalse (fun hc => h (Except.error.inj hc))
  | .error _, .ok _ => .isFalse (fun hc => Except.noConfusion hc)
  | .ok _, .error _ => .isFalse (fun hc => Except.noConfusion hc)
  | .ok a, .ok b =>
    if h : a = b then .isTrue (h ▸ rfl) else .isFalse (fun hc => h (Except.ok.inj hc))

/-- The error enum of error.rs (payloads kept where the sources fix them). -/
inductive Error where
  | InvalidMagic (magic : Nat)
  | InvalidImageDimensions (width height : Nat)
  | InvalidImageLength (size width height : Nat)
  | DataLengthNotSet
  | OutputBufferTooSmall (size required : Nat)
  | UnexpectedBufferEnd
  | InvalidPadding
  | IoError
deriving DecidableEq, Repr

/-- A 4-byte RGBA pixel from pixel.rs, the four channel bytes as fields. -/
structure Pixel where
  r : Nat
  g : Nat
  b : Nat
  a : Nat
deriving DecidableEq, Repr

/-- Modelled from the spec: utils.rs is not among the given sources.  The
abstract output sink of the core: it reports remaining capacity and accepts
a single byte or a short byte sequence, failing when capacity is exhausted. -/
class Writer (W : Type) where
  capacity : W → Nat
  write_one : W → Nat → Except Error W
  write_many : W → List Nat → Except Error W

/-- Modelled from the spec: the in-memory buffer sink (BytesMut in the
source), holding the bytes written so far and the remaining capacity. -/
structure BytesMut where
  written : List Nat
  cap : Nat
deriving DecidableEq, Repr

instance : Writer BytesMut where
  capacity b := b.cap
  write_one b x :=
    if b.cap = 0 then .error (.OutputBufferTooSmall 0 1)
    else .ok ⟨b.written ++ [x], b.cap - 1⟩
  write_many b xs :=
    if b.cap < xs.length then .error (.OutputBufferTooSmall b.cap xs.length)
    else .ok ⟨b.written ++ xs, b.cap - xs.length⟩

/-- Modelled from the spec: the streaming sink (GenericWriter in the
source), which counts writes and never runs out of capacity; its reported
capacity is the usize maximum minus the number of writes so far. -/
structure GenericWriter where
  written : List Nat
  n_writes : Nat
deriving DecidableEq, Repr

instance : Writer GenericWriter where
  capacity g := USIZE_MAX - g.n_writes
  write_one g x := .ok ⟨g.written ++ [x], g.n_writes + 1⟩
  write_many g xs := .ok ⟨g.written ++ xs, g.n_writes + xs.length⟩

/-- Pixel of all zero bytes, as Pixel new in pixel.rs. -/
def Pixel.new : Pixel := ⟨0, 0, 0, 0⟩

/-- Replaces the alpha byte, as with_a in pixel.rs. -/
def Pixel.with_a (p : Pixel) (value : Nat) : Pixel := { p with a := value }

/-- Copy of the pixel, as as_rgba in pixel.rs (a plain 4-byte copy). -/
def Pixel.as_rgba (p : Pixel) : Pixel := ⟨p.r, p.g, p.b, p.a⟩

/-- The hash of pixel.rs hash_index: the 4 bytes as a little-endian u32
widened to u64, the high and low byte pairs interleaved by mask and shift,
a wrapping multiply by a fixed odd constant, a 56-bit right shift, a cast
to u8 and the low 6 bits kept. -/
def Pixel.hash_index (p : Pixel) : Nat :=
  let v := p.r + 256 * p.g + 65536 * p.b + 16777216 * p.a
  let s := ((v &&& 0xff00ff00) <<< 32) ||| (v &&& 0x00ff00ff)
  (((s * 0x030007000005000b) % (2 ^ 64)) >>> 56) % 256 &&& 63

/-- The value-relative chunk emission of pixel.rs encode_into, translated
branch for branch; wrapping u8 arithmetic is explicit modulo 256. -/
def Pixel.encode_into {W : Type} [Writer W] (p : Pixel) (px_prev : Pixel)
    (buf : W) : Except Error W :=
  if p.a = px_prev.a then
    let vg := wsub8 p.g px_prev.g
    let vg_32 := wadd8 vg 32
    if vg_32 ||| 63 = 63 then
      let vr := wsub8 p.r px_prev.r
      let vb := wsub8 p.b px_prev.b
      let vg_r := wsub8 vr vg
      let vg_b := wsub8 vb vg
      let vr_2 := wadd8 vr 2
      let vg_2 := wadd8 vg 2
      let vb_2 := wadd8 vb 2
      if vr_2 ||| vg_2 ||| vb_2 ||| 3 = 3 then
        Writer.write_one buf (QOI_OP_DIFF ||| (vr_2 <<< 4) ||| (vg_2 <<< 2) ||| vb_2)
      else
        let vg_r_8 := wadd8 vg_r 8
        let vg_b_8 := wadd8 vg_b 8
        if vg_r_8 ||| vg_b_8 ||| 15 = 15 then
          Writer.write_many buf [QOI_OP_LUMA ||| vg_32, (vg_r_8 <<< 4) ||| vg_b_8]
        else
          Writer.write_many buf [QOI_OP_RGB, p.r, p.g, p.b]
    else
      Writer.write_many buf [QOI_OP_RGB, p.r, p.g, p.b]
  else
    Writer.write_many buf [QOI_OP_RGBA, p.r, p.g, p.b, p.a]

/-- The value-relative chunk decision as the spec states it, in flat
priority order: literal RGBA on any alpha change; else a diff chunk when
all three wrapping channel deltas lie in the signed 2-bit range; else a
luma chunk when the green delta lies in the signed 6-bit range and both
cross deltas lie in the signed 4-bit range; else a literal RGB chunk.
Byte contents follow the spec wording with plus-2, plus-32 and plus-8
biases packed arithmetically. -/
def chunkSpec (p px_prev : Pixel) : List Nat :=
  let dr := wsub8 p.r px_prev.r
  let dg := wsub8 p.g px_prev.g
  let db := wsub8 p.b px_prev.b
  if p.a ≠ px_prev.a then
    [QOI_OP_RGBA, p.r, p.g, p.b, p.a]
  else if wadd8 dr 2 < 4 ∧ wadd8 dg 2 < 4 ∧ wadd8 db 2 < 4 then
    [64 + 16 * wadd8 dr 2 + 4 * wadd8 dg 2 + wadd8 db 2]
  else if wadd8 dg 32 < 64 ∧ wadd8 (wsub8 dr dg) 8 < 16 ∧ wadd8 (wsub8 db dg) 8 < 16 then
    [128 + wadd8 dg 32, 16 * wadd8 (wsub8 dr dg) 8 + wadd8 (wsub8 db dg) 8]
  else
    [QOI_OP_RGB, p.r, p.g, p.b]

/-- The hash index as the spec states it: treat the 4 bytes as a 32-bit
little-endian integer, widen to 64 bits, interleave the high and low byte
pairs, multiply wrapping by the fixed odd 64-bit constant, shift right by
56 bits and take the top 6 bits of the high byte. -/
def hashSpec (p : Pixel) : Nat :=
  let v := p.r + 256 * p.g + 65536 * p.b + 16777216 * p.a
  let s := ((v &&& 0xff00ff00) <<< 32) ||| (v &&& 0x00ff00ff)
  (((s * 0x030007000005000b) % (2 ^ 64)) >>> 56) % 256 &&& 63

/-- The local state of one encode pass in encode_impl: the 256-slot cache,
the previous pixel, its hash, the pending run counter, and the cache
eligibility flag. -/
structure EncState where
  index : List Pixel
  px_prev : Pixel
  hash_prev : Nat
  run : Nat
  index_allowed : Bool
deriving DecidableEq, Repr

/-- The state encode_impl sets up before the pixel loop. -/
def initState : EncState :=
  { index := List.replicate 256 Pixel.new
    px_prev := Pixel.new.with_a 0xff
    hash_prev := (Pixel.new.with_a 0xff).hash_index
    run := 0
    index_allowed := false }

/-- Splits the raw byte stream into 4-byte pixels, dropping any partial
trailing chunk, as chunks_exact of 4 does in encode_impl. -/
def pixelsOf : List Nat → List Pixel
  | r :: g :: b :: a :: rest => ⟨r, g, b, a⟩ :: pixelsOf rest
  | _ => []

/-- One iteration of the pixel loop of encode_impl.  The ref flag selects
the reference-mode build of the run-flush (feature reference in the
source); isLast tells whether this is the final pixel of the image.
Setting run to zero on the not-equal path is unconditional here, which
agrees with the source because there run is only assigned zero inside the
flush branch and is already zero otherwise. -/
def encodeStep {W : Type} [Writer W] (ref : Bool) (st : EncState) (px : Pixel)
    (isLast : Bool) (buf : W) : Except Error (EncState × W) :=
  if px = st.px_prev then
    let run := st.run + 1
    if run = 62 ∨ isLast then
      match Writer.write_one buf (QOI_OP_RUN ||| (run - 1)) with
      | .error e => .error e
      | .ok buf => .ok ({ st with run := 0 }, buf)
    else
      .ok ({ st with run := run }, buf)
  else
    let flushed : Except Error W :=
      if st.run ≠ 0 then
        if ref then
          Writer.write_one buf (QOI_OP_RUN ||| (st.run - 1))
        else
          Writer.write_one buf
            (if st.run = 1 ∧ st.index_allowed then QOI_OP_INDEX ||| st.hash_prev
             else QOI_OP_RUN ||| (st.run - 1))
      else
        .ok buf
    match flushed with
    | .error e => .error e
    | .ok buf =>
      let px_rgba := px.as_rgba
      let hash_prev := px_rgba.hash_index
      let index_px := st.index.getD hash_prev Pixel.new
      if index_px = px_rgba then
        match Writer.write_one buf (QOI_OP_INDEX ||| hash_prev) with
        | .error e => .error e
        | .ok buf =>
          .ok ({ st with run := 0, index_allowed := true, hash_prev := hash_prev,
                         px_prev := px }, buf)
      else
        match px.encode_into st.px_prev buf with
        | .error e => .error e
        | .ok buf =>
          .ok ({ index := st.index.set hash_prev px_rgba, px_prev := px,
                 hash_prev := hash_prev, run := 0, index_allowed := true }, buf)

/-- The pixel loop of encode_impl over the remaining pixels. -/
def encodeLoop {W : Type} [Writer W] (ref : Bool) :
    EncState → W → List Pixel → Except Error (EncState × W)
  | st, buf, [] => .ok (st, buf)
  | st, buf, px :: rest =>
    match encodeStep ref st px rest.isEmpty buf with
    | .error e => .error e
    | .ok (st, buf) => encodeLoop ref st buf rest

/-- The whole of encode_impl: run the pixel loop from the initial state,
append the end-of-stream marker, and return the number of bytes written as
the initial capacity minus the remaining capacity (saturating, which plain
Nat subtraction is). -/
def encode_impl {W : Type} [Writer W] (ref : Bool) (buf : W) (data : List Nat) :
    Except Error Nat :=
  let cap := Writer.capacity buf
  match encodeLoop ref initState buf (pixelsOf data) with
  | .error e => .error e
  | .ok (_, buf) =>
    match Writer.write_many buf QOI_PADDING with
    | .error e => .error e
    | .ok buf => .ok (cap - Writer.capacity buf)

/-- The image header of header.rs. -/
structure Header where
  width : Nat
  height : Nat
  length : Option Nat
deriving DecidableEq, Repr

/-- Pixel count of the header, a saturating usize multiply. -/
def Header.n_pixels (h : Header) : Nat := satMul h.width h.height

/-- Header construction with dimension validation, as try_new in header.rs. -/
def Header.try_new (width height : Nat) (length : Option Nat) : Except Error Header :=
  let n_pixels := satMul width height
  if n_pixels = 0 ∨ n_pixels > QOI_PIXELS_MAX then
    .error (.InvalidImageDimensions width height)
  else
    .ok { width := width, height := height, length := length }

/-- Little-endian bytes of a u16. -/
def u16_to_le (x : Nat) : List Nat := [x % 256, x / 256 % 256]

/-- Little-endian bytes of a u32. -/
def u32_to_le (x : Nat) : List Nat :=
  [x % 256, x / 256 % 256, x / 65536 % 256, x / 16777216 % 256]

/-- A u16 from two little-endian bytes. -/
def u16_from_le (b0 b1 : Nat) : Nat := b0 + 256 * b1

/-- A u32 from four little-endian bytes. -/
def u32_from_le (b0 b1 b2 b3 : Nat) : Nat :=
  b0 + 256 * b1 + 65536 * b2 + 16777216 * b3

/-- Header serialization as encode in header.rs: fails with
DataLengthNotSet when length is unset, else the 12 header bytes in order:
magic, width, height, length, all little-endian. -/
def Header.encode (h : Header) : Except Error (List Nat) :=
  match h.length with
  | none => .error .DataLengthNotSet
  | some data_length =>
    .ok (u32_to_le QOI_MAGIC ++ u16_to_le h.width ++ u16_to_le h.height ++
         u32_to_le data_length)

/-- Header deserialization as decode in header.rs: length check, field
extraction, magic check, then try_new for dimension validation. -/
def Header.decode (data : List Nat) : Except Error Header :=
  if data.length < QOI_HEADER_SIZE then .error .UnexpectedBufferEnd
  else
    let magic := u32_from_le (data.getD 0 0) (data.getD 1 0) (data.getD 2 0) (data.getD 3 0)
    let width := u16_from_le (data.getD 4 0) (data.getD 5 0)
    let height := u16_from_le (data.getD 6 0) (data.getD 7 0)
    let length := u32_from_le (data.getD 8 0) (data.getD 9 0) (data.getD 10 0) (data.getD 11 0)
    if magic ≠ QOI_MAGIC then .error (.InvalidMagic magic)
    else Header.try_new width height (some length)

/-- Worst-case encoded size, as encode_max_len in encode.rs. -/
def encode_max_len (width height : Nat) : Nat :=
  let n_pixels := satMul width height
  QOI_HEADER_SIZE + satMul n_pixels 4 + n_pixels + QOI_PADDING_SIZE

/-- Maximum encoded length from a header, as in header.rs. -/
def Header.encode_max_len (h : Header) : Nat := Qoi.encode_max_len h.width h.height

/-- The encoder of encode.rs: the borrowed pixel data and the header. -/
structure Encoder where
  data : List Nat
  header : Header
deriving DecidableEq, Repr

/-- Encoder construction, as new in encode.rs: build the header with the
length unset, infer the channel count by division, and reject the data
when the division is not exact. -/
def Encoder.new (data : List Nat) (width height : Nat) : Except Error Encoder :=
  match Header.try_new width height none with
  | .error e => .error e
  | .ok header =>
    let size := data.length
    let n_channels := size / header.n_pixels
    if header.n_pixels * n_channels ≠ size then
      .error (.InvalidImageLength size width height)
    else
      .ok { data := data, header := header }

/-- Required output buffer size, as required_buf_len in encode.rs. -/
def Encoder.required_buf_len (e : Encoder) : Nat := e.header.encode_max_len

/-- Encoding into a pre-allocated buffer, as encode_to_buf in encode.rs.
The caller buffer is abstracted to its length; the returned pair is the
total byte count and the header as mutated by the call (its length gets
set to the tail length cast to u32, the buffer length minus the header
size, exactly as the source assigns it). -/
def Encoder.encode_to_buf (ref : Bool) (e : Encoder) (buflen : Nat) :
    Except Error (Nat × Header) :=
  let size_required := e.required_buf_len
  if buflen < size_required then
    .error (.OutputBufferTooSmall buflen size_required)
  else
    let tail_len := buflen - QOI_HEADER_SIZE
    match encode_impl ref (BytesMut.mk [] tail_len) e.data with
    | .error er => .error er
    | .ok n_written =>
      let header := { e.header with length := some (wrap32 tail_len) }
      match header.encode with
      | .error er => .error er
      | .ok _head => .ok (QOI_HEADER_SIZE + n_written, header)

/-- Encoding into a fresh vector, as encode_to_vec in encode.rs: allocate
required_buf_len bytes, encode into them, truncate to the returned size.
The model returns the truncated length and the mutated header. -/
def Encoder.encode_to_vec (ref : Bool) (e : Encoder) : Except Error (Nat × Header) :=
  e.encode_to_buf ref e.required_buf_len

/-- Encoding to a generic stream, as encode_to_stream in encode.rs: write
the serialized header, then the chunk stream, and return the byte count.
The header is serialized with the length field exactly as the encoder
holds it at the time of the call. -/
def Encoder.encode_to_stream (ref : Bool) (e : Encoder) : Except Error Nat :=
  match e.header.encode with
  | .error er => .error er
  | .ok _head =>
    match encode_impl ref (GenericWriter.mk [] 0) e.data with
    | .error er => .error er
    | .ok n_written => .ok (n_written + QOI_HEADER_SIZE)

/-- A concrete encoder state used as a sample input: a pending run of
length 1 with the cache eligible. -/
def wstate : EncState := ⟨List.replicate 256 Pixel.new, ⟨9, 9, 9, 255⟩, 5, 1, true⟩

/-- A concrete encoder state used as a sample input: a pending run of
length 61. -/
def wstate61 : EncState := ⟨List.replicate 256 Pixel.new, ⟨7, 7, 7, 255⟩, 3, 61, true⟩

/-! Helper lemmas about Nat bitwise or, used to relate the bit-mask range
tests of the source to the plain range statements of the spec. -/

theorem le_lor_left (a b : Nat) : a ≤ a ||| b := by
  have h : a &&& (a ||| b) = a := by
    apply Nat.eq_of_testBit_eq
    intro i
    simp only [Nat.testBit_land, Nat.testBit_lor]
    cases a.testBit i <;> simp
  calc a = a &&& (a ||| b) := h.symm
  _ ≤ a ||| b := Nat.and_le_right

theorem le_lor_right (a b : Nat) : b ≤ a ||| b := by
  rw [Nat.lor_comm]
  exact le_lor_left b a

theorem lor_lt_iff (a b n : Nat) : a ||| b < 2 ^ n ↔ a < 2 ^ n ∧ b < 2 ^ n := by
  constructor
  · intro hl
    exact ⟨lt_of_le_of_lt (le_lor_left a b) hl, lt_of_le_of_lt (le_lor_right a b) hl⟩
  · rintro ⟨ha, hb⟩
    exact Nat.bitwise_lt ha hb

theorem lor_mask_eq_iff (x n : Nat) : x ||| (2 ^ n - 1) = 2 ^ n - 1 ↔ x < 2 ^ n := by
  have hpos : 0 < 2 ^ n := Nat.pos_pow_of_pos n (by norm_num)
  constructor
  · intro hx
    have h1 : x ≤ 2 ^ n - 1 := hx ▸ le_lor_left x (2 ^ n - 1)
    omega
  · intro hx
    have hm : 2 ^ n - 1 < 2 ^ n := by omega
    have hlt : x ||| (2 ^ n - 1) < 2 ^ n := (lor_lt_iff _ _ _).mpr ⟨hx, hm⟩
    have hge : 2 ^ n - 1 ≤ x ||| (2 ^ n - 1) := le_lor_right _ _
    omega

theorem lor3_mask_eq_iff (a b c n : Nat) :
    a ||| b ||| c ||| (2 ^ n - 1) = 2 ^ n - 1 ↔ a < 2 ^ n ∧ b < 2 ^ n ∧ c < 2 ^ n := by
  rw [lor_mask_eq_iff, lor_lt_iff, lor_lt_iff]
  tauto

theorem lor2_mask_eq_iff (a b n : Nat) :
    a ||| b ||| (2 ^ n - 1) = 2 ^ n - 1 ↔ a < 2 ^ n ∧ b < 2 ^ n := by
  rw [lor_mask_eq_iff, lor_lt_iff]

theorem diff_pack : ∀ a b c : Fin 4,
    (64 ||| (a.val <<< 4) ||| (b.val <<< 2) ||| c.val) = 64 + 16 * a.val + 4 * b.val + c.val := by
  decide

theorem luma_pack1 : ∀ x : Fin 64, (128 ||| x.val) = 128 + x.val := by
  decide

theorem luma_pack2 : ∀ x y : Fin 16, ((x.val <<< 4) ||| y.val) = 16 * x.val + y.val := by
  decide

theorem wadd8_lt (x y : Nat) : wadd8 x y < 256 := by
  unfold wadd8
  omega

theorem wsub8_lt (x y : Nat) : wsub8 x y < 256 := by
  unfold wsub8
  omega

theorem diff_implies_green_range (d : Nat) (_hd : d < 256) (h : wadd8 d 2 < 4) :
    wadd8 d 32 < 64 := by
  unfold wadd8 at h ⊢
  omega

/-- The generic-writer form of the chunk decision: on the streaming sink,
encode_into always succeeds and appends exactly the bytes of the flat
priority decision chunkSpec. -/
theorem encode_into_generic (p prev : Pixel) (gw : GenericWriter) :
    p.encode_into prev gw =
      .ok ⟨gw.written ++ chunkSpec p prev, gw.n_writes + (chunkSpec p prev).length⟩ := by
  unfold Pixel.encode_into chunkSpec
  by_cases ha : p.a = prev.a
  · rw [if_pos ha, if_neg (not_not_intro ha)]
    by_cases hvg : wadd8 (wsub8 p.g prev.g) 32 ||| 63 = 63
    · rw [if_pos hvg]
      have hvg64 : wadd8 (wsub8 p.g prev.g) 32 < 64 := (lor_mask_eq_iff _ 6).mp hvg
      by_cases hd : wadd8 (wsub8 p.r prev.r) 2 ||| wadd8 (wsub8 p.g prev.g) 2 |||
          wadd8 (wsub8 p.b prev.b) 2 ||| 3 = 3
      · obtain ⟨h1, h2, h3⟩ := (lor3_mask_eq_iff _ _ _ 2).mp hd
        rw [if_pos hd, if_pos ⟨h1, h2, h3⟩]
        have hpack := diff_pack ⟨_, h1⟩ ⟨_, h2⟩ ⟨_, h3⟩
        simp only [QOI_OP_DIFF]
        rw [hpack]
        rfl
      · have hdneg : ¬(wadd8 (wsub8 p.r prev.r) 2 < 4 ∧ wadd8 (wsub8 p.g prev.g) 2 < 4 ∧
            wadd8 (wsub8 p.b prev.b) 2 < 4) := fun hc => hd ((lor3_mask_eq_iff _ _ _ 2).mpr hc)
        rw [if_neg hd, if_neg hdneg]
        by_cases hl : wadd8 (wsub8 (wsub8 p.r prev.r) (wsub8 p.g prev.g)) 8 |||
            wadd8 (wsub8 (wsub8 p.b prev.b) (wsub8 p.g prev.g)) 8 ||| 15 = 15
        · obtain ⟨hl1, hl2⟩ := (lor2_mask_eq_iff _ _ 4).mp hl
          rw [if_pos hl, if_pos ⟨hvg64, hl1, hl2⟩]
          have hp1 := luma_pack1 ⟨_, hvg64⟩
          have hp2 := luma_pack2 ⟨_, hl1⟩ ⟨_, hl2⟩
          simp only [QOI_OP_LUMA]
          rw [hp1, hp2]
          rfl
        · have hlneg : ¬(wadd8 (wsub8 p.g prev.g) 32 < 64 ∧
              wadd8 (wsub8 (wsub8 p.r prev.r) (wsub8 p.g prev.g)) 8 < 16 ∧
              wadd8 (wsub8 (wsub8 p.b prev.b) (wsub8 p.g prev.g)) 8 < 16) :=
            fun hc => hl ((lor2_mask_eq_iff _ _ 4).mpr ⟨hc.2.1, hc.2.2⟩)
          rw [if_neg hl, if_neg hlneg]
          rfl
    · rw [if_neg hvg]
      have hdneg : ¬(wadd8 (wsub8 p.r prev.r) 2 < 4 ∧ wadd8 (wsub8 p.g prev.g) 2 < 4 ∧
          wadd8 (wsub8 p.b prev.b) 2 < 4) := by
        rintro ⟨-, h2, -⟩
        exact hvg ((lor_mask_eq_iff _ 6).mpr
          (diff_implies_green_range _ (wsub8_lt _ _) h2))
      have hlneg : ¬(wadd8 (wsub8 p.g prev.g) 32 < 64 ∧
          wadd8 (wsub8 (wsub8 p.r prev.r) (wsub8 p.g prev.g)) 8 < 16 ∧
          wadd8 (wsub8 (wsub8 p.b prev.b) (wsub8 p.g prev.g)) 8 < 16) := by
        rintro ⟨h1, -, -⟩
        exact hvg ((lor_mask_eq_iff _ 6).mpr h1)
      rw [if_neg hdneg, if_neg hlneg]
      rfl
  · rw [if_neg ha, if_pos ha]
    rfl

/-- C4: for every pair of current and previous pixel, the value-relative
chunk decision of the source picks the chunk the spec prescribes, in the
spec priority order: any alpha change forces a 5-byte literal RGBA chunk;
otherwise all three wrapping channel deltas in the signed 2-bit range give
the 1-byte diff chunk; otherwise a green delta in the signed 6-bit range
with both cross deltas in the signed 4-bit range gives the 2-byte luma
chunk; otherwise the 4-byte literal RGB chunk is emitted. -/
theorem encode_into_follows_spec_priority (p prev : Pixel) (gw : GenericWriter) :
    p.encode_into prev gw =
      .ok ⟨gw.written ++ chunkSpec p prev, gw.n_writes + (chunkSpec p prev).length⟩ :=
  encode_into_generic p prev gw

/-- C6: the hash of the source equals the multiplicative-mix hash the spec
describes, and its value is always below 64, so every cache access the
hash produces lies within indices 0 to 63. -/
theorem hash_index_matches_spec_and_bounded (p : Pixel) :
    p.hash_index = hashSpec p ∧ p.hash_index < 64 := by
  constructor
  · rfl
  · exact Nat.lt_succ_of_le Nat.and_le_right

theorem gw_write_one (g : GenericWriter) (x : Nat) :
    Writer.write_one g x = Except.ok (GenericWriter.mk (g.written ++ [x]) (g.n_writes + 1)) :=
  rfl

theorem gw_write_many (g : GenericWriter) (xs : List Nat) :
    Writer.write_many g xs =
      Except.ok (GenericWriter.mk (g.written ++ xs) (g.n_writes + xs.length)) :=
  rfl

/-- C5: flushing a pending run at a value change.  In default mode the
flush byte is an indexed-cache reference to the previous pixel exactly
when the pending run length is 1 and the cache was eligible, and a plain
run chunk with payload count minus 1 otherwise; in reference mode it is
always the plain run chunk.  Eligibility starts false at start-of-image,
becomes true after any non-run pixel whether or not a run was pending
(last conjunct, no pending-run hypothesis), and is untouched by run
pixels. -/
theorem run_flush_tie_break (st : EncState) (px : Pixel) (isLast : Bool)
    (gw : GenericWriter) (hne : px ≠ st.px_prev) (hrun : st.run ≠ 0) :
    (∃ st1 w1 rest1, encodeStep false st px isLast gw = .ok (st1, w1) ∧
      w1.written = gw.written ++
        ((if st.run = 1 ∧ st.index_allowed then QOI_OP_INDEX ||| st.hash_prev
          else QOI_OP_RUN ||| (st.run - 1)) :: rest1) ∧
      st1.index_allowed = true) ∧
    (∃ st2 w2 rest2, encodeStep true st px isLast gw = .ok (st2, w2) ∧
      w2.written = gw.written ++ ((QOI_OP_RUN ||| (st.run - 1)) :: rest2)) ∧
    initState.index_allowed = false ∧
    (∀ (st' : EncState) (px' : Pixel) (last' : Bool) (gw' : GenericWriter)
      (s' : EncState) (w' : GenericWriter), px' = st'.px_prev →
      encodeStep false st' px' last' gw' = .ok (s', w') →
      s'.index_allowed = st'.index_allowed) ∧
    (∀ (stB : EncState) (pxB : Pixel) (lastB : Bool) (gwB : GenericWriter)
      (sB : EncState) (wB : GenericWriter), pxB ≠ stB.px_prev →
      encodeStep false stB pxB lastB gwB = .ok (sB, wB) →
      sB.index_allowed = true) := by
  refine ⟨?_, ?_, rfl, ?_, ?_⟩
  · by_cases hidx : (st.index[Pixel.hash_index (Pixel.as_rgba px)]?).getD Pixel.new = px.as_rgba
    · refine ⟨{ st with run := 0, index_allowed := true, hash_prev := Pixel.hash_index (Pixel.as_rgba px), px_prev := px }, GenericWriter.mk ((gw.written ++ [if st.run = 1 ∧ st.index_allowed then QOI_OP_INDEX ||| st.hash_prev else QOI_OP_RUN ||| (st.run - 1)]) ++ [QOI_OP_INDEX ||| Pixel.hash_index (Pixel.as_rgba px)]) (gw.n_writes + 1 + 1), [QOI_OP_INDEX ||| Pixel.hash_index (Pixel.as_rgba px)], ?_, ?_, rfl⟩
      · simp [encodeStep, hne, hrun, hidx, gw_write_one]
      · simp
    · refine ⟨{ index := st.index.set (Pixel.hash_index (Pixel.as_rgba px)) px.as_rgba, px_prev := px, hash_prev := Pixel.hash_index (Pixel.as_rgba px), run := 0, index_allowed := true }, GenericWriter.mk ((gw.written ++ [if st.run = 1 ∧ st.index_allowed then QOI_OP_INDEX ||| st.hash_prev else QOI_OP_RUN ||| (st.run - 1)]) ++ chunkSpec px st.px_prev) (gw.n_writes + 1 + (chunkSpec px st.px_prev).length), chunkSpec px st.px_prev, ?_, ?_, rfl⟩
      · simp [encodeStep, hne, hrun, hidx, gw_write_one, encode_into_generic]
      · simp
  · by_cases hidx : (st.index[Pixel.hash_index (Pixel.as_rgba px)]?).getD Pixel.new = px.as_rgba
    · refine ⟨{ st with run := 0, index_allowed := true, hash_prev := Pixel.hash_index (Pixel.as_rgba px), px_prev := px }, GenericWriter.mk ((gw.written ++ [QOI_OP_RUN ||| (st.run - 1)]) ++ [QOI_OP_INDEX ||| Pixel.hash_index (Pixel.as_rgba px)]) (gw.n_writes + 1 + 1), [QOI_OP_INDEX ||| Pixel.hash_index (Pixel.as_rgba px)], ?_, ?_⟩
      · simp [encodeStep, hne, hrun, hidx, gw_write_one]
      · simp
    · refine ⟨{ index := st.index.set (Pixel.hash_index (Pixel.as_rgba px)) px.as_rgba, px_prev := px, hash_prev := Pixel.hash_index (Pixel.as_rgba px), run := 0, index_allowed := true }, GenericWriter.mk ((gw.written ++ [QOI_OP_RUN ||| (st.run - 1)]) ++ chunkSpec px st.px_prev) (gw.n_writes + 1 + (chunkSpec px st.px_prev).length), chunkSpec px st.px_prev, ?_, ?_⟩
      · simp [encodeStep, hne, hrun, hidx, gw_write_one, encode_into_generic]
      · simp
  · intro st' px' last' gw' s' w' heq hok
    simp only [encodeStep, if_pos heq, gw_write_one] at hok
    split at hok
    · simp only [Except.ok.injEq, Prod.mk.injEq] at hok
      rw [← hok.1]
    · simp only [Except.ok.injEq, Prod.mk.injEq] at hok
      rw [← hok.1]
  · intro stB pxB lastB gwB sB wB hneB hokB
    by_cases hrun0 : stB.run = 0 <;>
      by_cases hidx : (stB.index[Pixel.hash_index (Pixel.as_rgba pxB)]?).getD Pixel.new = pxB.as_rgba <;>
      simp [encodeStep, hneB, hrun0, hidx, gw_write_one, encode_into_generic] at hokB <;>
      (obtain ⟨h1, h2⟩ := hokB; rw [← h1])

/-- Any step taken on a pixel that differs from the previous pixel leaves
the run counter at zero. -/
theorem step_run_zero_of_ne (st : EncState) (px : Pixel) (last : Bool)
    (gw : GenericWriter) (st' : EncState) (w' : GenericWriter)
    (hne : px ≠ st.px_prev)
    (hok : encodeStep false st px last gw = .ok (st', w')) : st'.run = 0 := by
  by_cases hrun0 : st.run = 0 <;>
    by_cases hidx : (st.index[Pixel.hash_index (Pixel.as_rgba px)]?).getD Pixel.new = px.as_rgba <;>
    simp [encodeStep, hne, hrun0, hidx, gw_write_one, encode_into_generic] at hok <;>
    (obtain ⟨h1, h2⟩ := hok; rw [← h1])

/-- Any step taken on the last pixel leaves the run counter at zero. -/
theorem step_run_zero_of_last (st : EncState) (px : Pixel)
    (gw : GenericWriter) (st' : EncState) (w' : GenericWriter)
    (hok : encodeStep false st px true gw = .ok (st', w')) : st'.run = 0 := by
  by_cases heq : px = st.px_prev
  · simp [encodeStep, heq, gw_write_one] at hok
    obtain ⟨h1, h2⟩ := hok
    rw [← h1]
  · exact step_run_zero_of_ne st px true gw st' w' heq hok

/-- Once the pixel list is nonempty, the loop finishes with the run
counter at zero. -/
theorem loop_run_zero (l : List Pixel) : ∀ (st : EncState) (gw : GenericWriter)
    (st' : EncState) (w' : GenericWriter), l ≠ [] →
    encodeLoop false st gw l = .ok (st', w') → st'.run = 0 := by
  induction l with
  | nil => intro st gw st' w' hne; exact absurd rfl hne
  | cons px rest ih =>
    intro st gw st' w' _ hok
    simp only [encodeLoop] at hok
    cases hstep : encodeStep false st px rest.isEmpty gw with
    | error e => rw [hstep] at hok; exact absurd hok (by simp)
    | ok pair =>
      obtain ⟨st1, gw1⟩ := pair
      rw [hstep] at hok
      by_cases hrest : rest = []
      · subst hrest
        simp [encodeLoop] at hok
        rw [← hok.1]
        exact step_run_zero_of_last st px gw st1 gw1 (by simpa using hstep)
      · exact ih st1 gw1 st' w' hrest hok

/-- C8: the run counter invariant.  The counter starts at zero; every step
from a state with counter at most 61 ends with counter at most 61; on a
pixel equal to the previous one the counter is incremented and a run chunk
carrying count minus 1 is flushed exactly when the incremented counter
reaches 62 or the pixel is the last one, the counter being reset to zero by
the flush; on a differing pixel the counter is reset to zero; and after the
last pixel of a nonempty image no pending run remains. -/
theorem run_counter_invariant :
    initState.run = 0 ∧
    (∀ (st : EncState) (px : Pixel) (last : Bool) (gw : GenericWriter)
      (st' : EncState) (w' : GenericWriter), st.run ≤ 61 →
      encodeStep false st px last gw = .ok (st', w') → st'.run ≤ 61) ∧
    (∀ (st : EncState) (px : Pixel) (last : Bool) (gw : GenericWriter),
      px = st.px_prev →
      ((st.run + 1 = 62 ∨ last = true) →
        encodeStep false st px last gw =
          .ok ({ st with run := 0 }, GenericWriter.mk (gw.written ++ [QOI_OP_RUN ||| (st.run + 1 - 1)]) (gw.n_writes + 1))) ∧
      (st.run + 1 ≠ 62 → last = false →
        encodeStep false st px last gw = .ok ({ st with run := st.run + 1 }, gw))) ∧
    (∀ (st : EncState) (px : Pixel) (last : Bool) (gw : GenericWriter)
      (st' : EncState) (w' : GenericWriter), px ≠ st.px_prev →
      encodeStep false st px last gw = .ok (st', w') → st'.run = 0) ∧
    (∀ (l : List Pixel) (st : EncState) (gw : GenericWriter)
      (st' : EncState) (w' : GenericWriter), l ≠ [] →
      encodeLoop false st gw l = .ok (st', w') → st'.run = 0) := by
  refine ⟨rfl, ?_, ?_, fun st px last gw st' w' => step_run_zero_of_ne st px last gw st' w', fun l => loop_run_zero l⟩
  · intro st px last gw st' w' hb hok
    by_cases heq : px = st.px_prev
    · by_cases hflush : st.run = 61 ∨ last = true
      · simp [encodeStep, heq, hflush, gw_write_one] at hok
        rw [← hok.1]
        simp
      · simp [encodeStep, heq, hflush, gw_write_one] at hok
        rw [← hok.1]
        simp only [not_or] at hflush
        have h61 := hflush.1
        simp
        omega
    · have := step_run_zero_of_ne st px last gw st' w' heq hok
      omega
  · intro st px last gw heq
    constructor
    · intro hflush
      have hf2 : st.run = 61 ∨ last = true := by
        rcases hflush with h | h
        · left
          omega
        · right
          exact h
      simp [encodeStep, heq, hf2, gw_write_one]
    · intro h62 hlast
      subst hlast
      have h61 : ¬st.run = 61 := by omega
      simp [encodeStep, heq, h61]

theorem bm_write_one (b : BytesMut) (x : Nat) :
    Writer.write_one b x =
      if b.cap = 0 then Except.error (Error.OutputBufferTooSmall 0 1)
      else Except.ok (BytesMut.mk (b.written ++ [x]) (b.cap - 1)) :=
  rfl

theorem bm_write_many (b : BytesMut) (xs : List Nat) :
    Writer.write_many b xs =
      if b.cap < xs.length then Except.error (Error.OutputBufferTooSmall b.cap xs.length)
      else Except.ok (BytesMut.mk (b.written ++ xs) (b.cap - xs.length)) :=
  rfl

theorem bm_write_one_cap (b b' : BytesMut) (x : Nat)
    (h : Writer.write_one b x = .ok b') : b'.cap + 1 = b.cap := by
  rw [bm_write_one] at h
  split at h
  · simp at h
  · next hc =>
    simp only [Except.ok.injEq] at h
    subst h
    simp
    omega

theorem bm_write_many_cap (b b' : BytesMut) (xs : List Nat)
    (h : Writer.write_many b xs = .ok b') : b'.cap + xs.length = b.cap := by
  rw [bm_write_many] at h
  split at h
  · simp at h
  · next hc =>
    simp only [Except.ok.injEq] at h
    subst h
    simp
    omega

theorem encode_into_cap (p prev : Pixel) (b b' : BytesMut)
    (h : p.encode_into prev b = .ok b') : b.cap ≤ b'.cap + 5 ∧ b'.cap ≤ b.cap := by
  unfold Pixel.encode_into at h
  split at h
  · dsimp only [] at h
    split at h
    · split at h
      · have := bm_write_one_cap _ _ _ h
        omega
      · split at h
        · have := bm_write_many_cap _ _ _ h
          simp at this
          omega
        · have := bm_write_many_cap _ _ _ h
          simp at this
          omega
    · have := bm_write_many_cap _ _ _ h
      simp at this
      omega
  · have := bm_write_many_cap _ _ _ h
    simp at this
    omega

theorem encodeStep_cap (ref : Bool) (st : EncState) (px : Pixel) (last : Bool)
    (b : BytesMut) (st' : EncState) (b' : BytesMut)
    (h : encodeStep ref st px last b = .ok (st', b')) :
    b.cap ≤ b'.cap + 5 + (if st.run = 0 then 0 else 1) ∧ b'.cap ≤ b.cap ∧
      (st'.run = 0 ∨ (st'.run = st.run + 1 ∧ b' = b)) := by
  unfold encodeStep at h
  dsimp only [] at h
  split at h
  · split at h
    · split at h
      · exact absurd h (by simp)
      · rename_i bw hw
        simp only [Except.ok.injEq, Prod.mk.injEq] at h
        obtain ⟨hst, hb⟩ := h
        subst hst
        subst hb
        have hcap := bm_write_one_cap _ _ _ hw
        refine ⟨?_, by omega, .inl rfl⟩
        split <;> omega
    · simp only [Except.ok.injEq, Prod.mk.injEq] at h
      obtain ⟨hst, hb⟩ := h
      subst hst
      subst hb
      exact ⟨by split <;> omega, le_refl _, .inr ⟨rfl, rfl⟩⟩
  · split at h
    · exact absurd h (by simp)
    · rename_i bufm hfl
      have hflcap : (st.run = 0 ∧ bufm = b) ∨ (st.run ≠ 0 ∧ bufm.cap + 1 = b.cap) := by
        split at hfl
        · rename_i hrn
          split at hfl
          · exact .inr ⟨hrn, bm_write_one_cap _ _ _ hfl⟩
          · exact .inr ⟨hrn, bm_write_one_cap _ _ _ hfl⟩
        · rename_i hrn
          simp only [Except.ok.injEq] at hfl
          exact .inl ⟨not_ne_iff.mp hrn, hfl.symm⟩
      have hbody : bufm.cap ≤ b'.cap + 5 ∧ b'.cap ≤ bufm.cap ∧ st'.run = 0 := by
        split at h
        · split at h
          · exact absurd h (by simp)
          · rename_i bw hw
            simp only [Except.ok.injEq, Prod.mk.injEq] at h
            obtain ⟨hst, hb⟩ := h
            subst hst
            subst hb
            have hcap := bm_write_one_cap _ _ _ hw
            exact ⟨by omega, by omega, rfl⟩
        · split at h
          · exact absurd h (by simp)
          · rename_i bnew henc
            simp only [Except.ok.injEq, Prod.mk.injEq] at h
            obtain ⟨hst, hb⟩ := h
            subst hst
            subst hb
            have := encode_into_cap _ _ _ _ henc
            exact ⟨this.1, this.2, rfl⟩
      rcases hflcap with ⟨hrz, hbeq⟩ | ⟨hrn, hcapf⟩
      · subst hbeq
        refine ⟨?_, hbody.2.1, .inl hbody.2.2⟩
        simp [hrz]
        omega
      · refine ⟨?_, ?_, .inl hbody.2.2⟩
        · simp [hrn]
          omega
        · omega

theorem encodeLoop_cap (ref : Bool) (l : List Pixel) : ∀ (st : EncState)
    (b : BytesMut) (st' : EncState) (b' : BytesMut),
    encodeLoop ref st b l = .ok (st', b') →
    b.cap ≤ b'.cap + 5 * l.length + (if st.run = 0 then 0 else 1) ∧ b'.cap ≤ b.cap := by
  induction l with
  | nil =>
    intro st b st' b' h
    simp [encodeLoop] at h
    rw [← h.2]
    split <;> omega
  | cons px rest ih =>
    intro st b st' b' h
    simp only [encodeLoop] at h
    cases hstep : encodeStep ref st px rest.isEmpty b with
    | error e =>
      rw [hstep] at h
      exact absurd h (by simp)
    | ok pair =>
      obtain ⟨st1, b1⟩ := pair
      rw [hstep] at h
      have hc := encodeStep_cap ref st px rest.isEmpty b st1 b1 hstep
      have hl := ih st1 b1 st' b' h
      by_cases hr : st.run = 0
      · rw [if_pos hr] at hc
        rw [if_pos hr]
        rcases hc.2.2 with hz | ⟨hs, hbeq⟩
        · rw [if_pos hz] at hl
          simp only [List.length_cons]
          omega
        · subst hbeq
          have h1 : ¬st1.run = 0 := by omega
          rw [if_neg h1] at hl
          simp only [List.length_cons]
          omega
      · rw [if_neg hr] at hc
        rw [if_neg hr]
        rcases hc.2.2 with hz | ⟨hs, hbeq⟩
        · rw [if_pos hz] at hl
          simp only [List.length_cons]
          omega
        · subst hbeq
          have h1 : ¬st1.run = 0 := by omega
          rw [if_neg h1] at hl
          simp only [List.length_cons]
          omega

theorem pixelsOf_length : ∀ data : List Nat, (pixelsOf data).length = data.length / 4
  | r :: g :: b :: a :: rest => by
    simp only [pixelsOf, List.length_cons, pixelsOf_length rest]
    omega
  | [] => by simp [pixelsOf]
  | [x] => by simp [pixelsOf]
  | [x, y] => by simp [pixelsOf]
  | [x, y, z] => by simp [pixelsOf]

theorem encode_impl_bound (ref : Bool) (b : BytesMut) (data : List Nat) (n : Nat)
    (h : encode_impl ref b data = .ok n) : n ≤ 5 * (data.length / 4) + 8 := by
  unfold encode_impl at h
  cases hloop : encodeLoop ref initState b (pixelsOf data) with
  | error e =>
    rw [hloop] at h
    exact absurd h (by simp)
  | ok pair =>
    obtain ⟨st1, b1⟩ := pair
    rw [hloop] at h
    dsimp only [] at h
    have hc := encodeLoop_cap ref (pixelsOf data) initState b st1 b1 hloop
    rw [pixelsOf_length] at hc
    have hrz : initState.run = 0 := rfl
    rw [if_pos hrz] at hc
    cases hpad : Writer.write_many (W := BytesMut) b1 QOI_PADDING with
    | error e =>
      rw [hpad] at h
      exact absurd h (by simp)
    | ok b2 =>
      rw [hpad] at h
      have hp := bm_write_many_cap _ _ _ hpad
      have hplen : QOI_PADDING.length = 8 := rfl
      rw [hplen] at hp
      simp only [Except.ok.injEq] at h
      subst h
      have hcb : Writer.capacity (W := BytesMut) b = b.cap := rfl
      have hcb2 : Writer.capacity (W := BytesMut) b2 = b2.cap := rfl
      rw [hcb, hcb2]
      omega

/-- C7: the worst-case size formula and its soundness.  The first part is
the closed form of encode_max_len: header size plus 4 bytes per pixel plus
one extra byte per pixel plus the end-marker size.  The second part: any
successful buffer encode of pixel data of matching size writes at most
that many bytes in total. -/
theorem encode_max_len_formula_and_bound (w h : Nat) (hw : w < 65536) (hh : h < 65536) :
    encode_max_len w h = QOI_HEADER_SIZE + (w * h) * 4 + w * h + QOI_PADDING_SIZE ∧
    (∀ (data : List Nat) (ref : Bool) (buflen : Nat) (e : Encoder)
      (total : Nat) (hdr : Header),
      data.length = 4 * (w * h) →
      Encoder.new data w h = .ok e →
      e.encode_to_buf ref buflen = .ok (total, hdr) →
      total ≤ encode_max_len w h) := by
  have hmul : w * h ≤ 65535 * 65535 :=
    Nat.mul_le_mul (by omega) (by omega)
  have hm1 : satMul w h = w * h := by
    unfold satMul USIZE_MAX
    have : w * h ≤ 2 ^ 64 - 1 := by
      calc w * h ≤ 65535 * 65535 := hmul
      _ ≤ 2 ^ 64 - 1 := by norm_num
    omega
  have hm2 : satMul (w * h) 4 = w * h * 4 := by
    unfold satMul USIZE_MAX
    have : w * h * 4 ≤ 2 ^ 64 - 1 := by
      calc w * h * 4 ≤ 65535 * 65535 * 4 := by omega
      _ ≤ 2 ^ 64 - 1 := by norm_num
    omega
  have hform : encode_max_len w h = QOI_HEADER_SIZE + (w * h) * 4 + w * h + QOI_PADDING_SIZE := by
    unfold encode_max_len
    rw [hm1]
    dsimp only []
    rw [hm2]
  refine ⟨hform, ?_⟩
  intro data ref buflen e total hdr hlen hnew henc
  unfold Encoder.new at hnew
  cases htn : Header.try_new w h none with
  | error er =>
    rw [htn] at hnew
    exact absurd hnew (by simp)
  | ok hd0 =>
    rw [htn] at hnew
    dsimp only [] at hnew
    split at hnew
    · exact absurd hnew (by simp)
    · simp only [Except.ok.injEq] at hnew
      have hdims : hd0.width = w ∧ hd0.height = h := by
        unfold Header.try_new at htn
        dsimp only [] at htn
        split at htn
        · exact absurd htn (by simp)
        · simp only [Except.ok.injEq] at htn
          rw [← htn]
          exact ⟨rfl, rfl⟩
      unfold Encoder.encode_to_buf at henc
      dsimp only [] at henc
      split at henc
      · exact absurd henc (by simp)
      · cases himp : encode_impl ref (BytesMut.mk [] (buflen - QOI_HEADER_SIZE)) e.data with
        | error er =>
          rw [himp] at henc
          exact absurd henc (by simp)
        | ok n =>
          rw [himp] at henc
          dsimp only [] at henc
          cases hhe : Header.encode { e.header with length := some (wrap32 (buflen - QOI_HEADER_SIZE)) } with
          | error er =>
            rw [hhe] at henc
            exact absurd henc (by simp)
          | ok head =>
            rw [hhe] at henc
            simp only [Except.ok.injEq, Prod.mk.injEq] at henc
            have hdata : e.data = data := by
              rw [← hnew]
            have hbound := encode_impl_bound ref _ _ n himp
            rw [hdata, hlen] at hbound
            have hq : 4 * (w * h) / 4 = w * h := by omega
            rw [hq] at hbound
            have htot : QOI_HEADER_SIZE + n = total := henc.1
            rw [hform]
            have h12 : QOI_HEADER_SIZE = 12 := rfl
            have h8 : QOI_PADDING_SIZE = 8 := rfl
            omega

theorem satMul_u16 (w h : Nat) (hw : w < 65536) (hh : h < 65536) :
    satMul w h = w * h := by
  unfold satMul USIZE_MAX
  have hmul : w * h ≤ 65535 * 65535 := Nat.mul_le_mul (by omega) (by omega)
  have : w * h ≤ 2 ^ 64 - 1 := by
    calc w * h ≤ 65535 * 65535 := hmul
    _ ≤ 2 ^ 64 - 1 := by norm_num
  omega

theorem try_new_err (w h : Nat) (len : Option Nat) (hw : w < 65536) (hh : h < 65536)
    (hbad : w = 0 ∨ h = 0 ∨ QOI_PIXELS_MAX < w * h) :
    Header.try_new w h len = .error (.InvalidImageDimensions w h) := by
  unfold Header.try_new
  dsimp only []
  rw [satMul_u16 w h hw hh]
  have hcond : w * h = 0 ∨ w * h > QOI_PIXELS_MAX := by
    rcases hbad with h0 | h0 | h0
    · left
      rw [h0]
      exact Nat.zero_mul h
    · left
      rw [h0]
      exact Nat.mul_zero w
    · right
      exact h0
  rw [if_pos hcond]

theorem try_new_ok (w h : Nat) (len : Option Nat) (hw : w < 65536) (hh : h < 65536)
    (hw0 : w ≠ 0) (hh0 : h ≠ 0) (hp : w * h ≤ QOI_PIXELS_MAX) :
    Header.try_new w h len = .ok ⟨w, h, len⟩ := by
  unfold Header.try_new
  dsimp only []
  rw [satMul_u16 w h hw hh]
  have hcond : ¬(w * h = 0 ∨ w * h > QOI_PIXELS_MAX) :=
    not_or.mpr ⟨Nat.mul_ne_zero hw0 hh0, by omega⟩
  rw [if_neg hcond]

/-- C9: header construction fails with InvalidImageDimensions exactly when
the width is zero, the height is zero, or the pixel count exceeds 400
million; in every other case it returns a header holding exactly the given
width, height and length. -/
theorem header_try_new_validation (w h : Nat) (len : Option Nat)
    (hw : w < 65536) (hh : h < 65536) :
    ((w = 0 ∨ h = 0 ∨ QOI_PIXELS_MAX < w * h) →
      Header.try_new w h len = .error (.InvalidImageDimensions w h)) ∧
    (w ≠ 0 → h ≠ 0 → w * h ≤ QOI_PIXELS_MAX →
      Header.try_new w h len = .ok ⟨w, h, len⟩) :=
  ⟨fun hbad => try_new_err w h len hw hh hbad,
   fun hw0 hh0 hp => try_new_ok w h len hw hh hw0 hh0 hp⟩

/-- C9 witness: at width 1, height 1 the hypotheses hold, construction
succeeds and returns the given fields. -/
theorem header_try_new_validation_witness :
    (1 : Nat) < 65536 ∧ Header.try_new 1 1 none = .ok ⟨1, 1, none⟩ :=
  ⟨by decide,
   (header_try_new_validation 1 1 none (by decide) (by decide)).2
     (by decide) (by decide) (by decide)⟩

theorem decode_12 (b0 b1 b2 b3 b4 b5 b6 b7 b8 b9 b10 b11 : Nat) :
    Header.decode [b0, b1, b2, b3, b4, b5, b6, b7, b8, b9, b10, b11] =
      (if u32_from_le b0 b1 b2 b3 ≠ QOI_MAGIC then
        Except.error (Error.InvalidMagic (u32_from_le b0 b1 b2 b3))
      else Header.try_new (u16_from_le b4 b5) (u16_from_le b6 b7)
        (some (u32_from_le b8 b9 b10 b11))) := rfl

/-- C10: header serialization round-trips.  For any header with nonzero
u16 width and height, pixel count at most 400 million and a set u32
length, decode after encode succeeds and returns the same header. -/
theorem header_encode_decode_roundtrip (w h l : Nat) (hw : w < 65536)
    (hh : h < 65536) (hl : l < 4294967296) (hw0 : w ≠ 0) (hh0 : h ≠ 0)
    (hp : w * h ≤ QOI_PIXELS_MAX) :
    ∃ bytes, Header.encode ⟨w, h, some l⟩ = .ok bytes ∧
      Header.decode bytes = .ok ⟨w, h, some l⟩ := by
  refine ⟨_, rfl, ?_⟩
  have hlist : (u32_to_le QOI_MAGIC ++ u16_to_le w ++ u16_to_le h ++ u32_to_le l) =
      [113, 111, 105, 102, w % 256, w / 256 % 256, h % 256, h / 256 % 256,
        l % 256, l / 256 % 256, l / 65536 % 256, l / 16777216 % 256] := by
    simp [u32_to_le, u16_to_le, QOI_MAGIC]
  rw [hlist, decode_12]
  have hmagic : ¬(u32_from_le 113 111 105 102 ≠ QOI_MAGIC) := by decide
  rw [if_neg hmagic]
  have hwr : u16_from_le (w % 256) (w / 256 % 256) = w := by
    unfold u16_from_le
    omega
  have hhr : u16_from_le (h % 256) (h / 256 % 256) = h := by
    unfold u16_from_le
    omega
  have hlr : u32_from_le (l % 256) (l / 256 % 256) (l / 65536 % 256)
      (l / 16777216 % 256) = l := by
    unfold u32_from_le
    omega
  rw [hwr, hhr, hlr]
  exact try_new_ok w h (some l) hw hh hw0 hh0 hp

/-- C10 witness: the round-trip at width 1, height 1, length 1. -/
theorem header_encode_decode_roundtrip_witness :
    (1 : Nat) < 65536 ∧ (1 : Nat) < 4294967296 ∧
    (∃ bytes, Header.encode ⟨1, 1, some 1⟩ = .ok bytes ∧
      Header.decode bytes = .ok ⟨1, 1, some 1⟩) :=
  ⟨by decide, by decide,
   header_encode_decode_roundtrip 1 1 1 (by decide) (by decide) (by decide)
     (by decide) (by decide) (by decide)⟩

/-- C1: evaluation at a failing input.  Encoding a 1 by 1 image whose only
pixel equals the implicit previous pixel into a 25-byte buffer returns 21
total bytes, so the chunk stream between header and end marker is 1 byte,
yet the header length field is set to 13, the tail length of the buffer.
The spec requires the length field to equal the chunk-stream byte count. -/
theorem encode_to_buf_header_length_is_tail_len :
    Encoder.new [0, 0, 0, 255] 1 1 = .ok ⟨[0, 0, 0, 255], ⟨1, 1, none⟩⟩ ∧
    Encoder.encode_to_buf false ⟨[0, 0, 0, 255], ⟨1, 1, none⟩⟩ 25 =
      .ok (21, ⟨1, 1, some 13⟩) ∧
    (13 : Nat) ≠ 21 - QOI_HEADER_SIZE - QOI_PADDING_SIZE := by
  exact ⟨by decide, by decide, by decide⟩

/-- C2: evaluation at a failing input.  A freshly constructed encoder has
its header length unset, and encode_to_stream serializes the header before
encoding, so it returns DataLengthNotSet, contradicting the claim that no
public encoding entry point can return that error. -/
theorem encode_to_stream_returns_DataLengthNotSet :
    Encoder.new [0, 0, 0, 255] 1 1 = .ok ⟨[0, 0, 0, 255], ⟨1, 1, none⟩⟩ ∧
    Encoder.encode_to_stream false ⟨[0, 0, 0, 255], ⟨1, 1, none⟩⟩ =
      .error .DataLengthNotSet := by
  exact ⟨by decide, by decide⟩

/-- C3: evaluation at a failing input.  Encoder construction with 8 data
bytes for a 1 by 1 image succeeds, although the inferred channel count is
8, not 3 or 4; the claim requires InvalidImageLength here.  The code only
checks that the division is exact. -/
theorem encoder_new_accepts_eight_bytes_per_pixel :
    Encoder.new [0, 0, 0, 0, 0, 0, 0, 0] 1 1 =
      .ok ⟨[0, 0, 0, 0, 0, 0, 0, 0], ⟨1, 1, none⟩⟩ ∧
    ([0, 0, 0, 0, 0, 0, 0, 0] : List Nat).length / ((1 : Nat) * 1) = 8 ∧
    (8 : Nat) ≠ 3 ∧ (8 : Nat) ≠ 4 := by
  exact ⟨by decide, by decide, by decide, by decide⟩

/-- C4 witness: the decision applied to one concrete pixel pair. -/
theorem encode_into_follows_spec_priority_witness :
    Pixel.encode_into ⟨1, 2, 3, 4⟩ ⟨0, 0, 0, 4⟩ (GenericWriter.mk [] 0) =
      .ok ⟨(GenericWriter.mk [] 0).written ++ chunkSpec ⟨1, 2, 3, 4⟩ ⟨0, 0, 0, 4⟩,
        (GenericWriter.mk [] 0).n_writes + (chunkSpec ⟨1, 2, 3, 4⟩ ⟨0, 0, 0, 4⟩).length⟩ :=
  encode_into_follows_spec_priority ⟨1, 2, 3, 4⟩ ⟨0, 0, 0, 4⟩ (GenericWriter.mk [] 0)

/-- C5 witness: the tie-break applied to a concrete state with a pending
run of length 1 and the cache eligible. -/
theorem run_flush_tie_break_witness :
    ((⟨1, 2, 3, 255⟩ : Pixel) ≠ wstate.px_prev) ∧ (wstate.run ≠ 0) ∧
    (∃ st1 w1 rest1,
      encodeStep false wstate ⟨1, 2, 3, 255⟩ false (GenericWriter.mk [] 0) = .ok (st1, w1) ∧
      w1.written = (GenericWriter.mk [] 0).written ++
        ((if wstate.run = 1 ∧ wstate.index_allowed then QOI_OP_INDEX ||| wstate.hash_prev
          else QOI_OP_RUN ||| (wstate.run - 1)) :: rest1) ∧
      st1.index_allowed = true) :=
  ⟨by decide, by decide,
   (run_flush_tie_break wstate ⟨1, 2, 3, 255⟩ false (GenericWriter.mk [] 0)
     (by decide) (by decide)).1⟩

/-- C6 witness: the hash facts at one concrete pixel. -/
theorem hash_index_matches_spec_and_bounded_witness :
    Pixel.hash_index ⟨0, 0, 0, 255⟩ = hashSpec ⟨0, 0, 0, 255⟩ ∧
    Pixel.hash_index ⟨0, 0, 0, 255⟩ < 64 :=
  hash_index_matches_spec_and_bounded ⟨0, 0, 0, 255⟩

/-- C7 witness: the formula at 1 by 1, and the bound at a concrete
successful encode of a 1 by 1 image into a 25-byte buffer. -/
theorem encode_max_len_formula_and_bound_witness :
    (1 : Nat) < 65536 ∧
    encode_max_len 1 1 = QOI_HEADER_SIZE + (1 * 1) * 4 + 1 * 1 + QOI_PADDING_SIZE ∧
    (21 : Nat) ≤ encode_max_len 1 1 :=
  ⟨by decide, (encode_max_len_formula_and_bound 1 1 (by decide) (by decide)).1,
   (encode_max_len_formula_and_bound 1 1 (by decide) (by decide)).2
     [0, 0, 0, 255] false 25 ⟨[0, 0, 0, 255], ⟨1, 1, none⟩⟩ 21 ⟨1, 1, some 13⟩
     (by decide) (by decide) (by decide)⟩

/-- C8 witness: a pending run of length 61 incremented on an equal pixel
reaches 62 and is flushed as a run chunk carrying 61. -/
theorem run_counter_invariant_witness :
    ((⟨7, 7, 7, 255⟩ : Pixel) = wstate61.px_prev) ∧
    ((wstate61.run + 1 = 62 ∨ (false : Bool) = true) →
      encodeStep false wstate61 ⟨7, 7, 7, 255⟩ false (GenericWriter.mk [] 0) =
        .ok ({ wstate61 with run := 0 },
          GenericWriter.mk ((GenericWriter.mk [] 0).written ++ [QOI_OP_RUN ||| (wstate61.run + 1 - 1)])
            ((GenericWriter.mk [] 0).n_writes + 1))) :=
  ⟨by decide,
   (run_counter_invariant.2.2.1 wstate61 ⟨7, 7, 7, 255⟩ false (GenericWriter.mk [] 0)
     (by decide)).1⟩

end Qoi
